import Mathlib

/-!
Shallow embedding of the `flat-cache` persistent cache engine
(`FlatCache`, `FastLRU` and their collaborators) and proofs about it.

The embedded code is the `FlatCache` class: its state fields
(`_cache`, `_lruCache`, `_changesSinceLastSave`, `_serializationCache`,
`_serializationCacheValid`, `_pendingWrites`, `_batchWriteTimer`,
`_batchWriteSize`, `_batchWriteDelay`, `_cacheDir`, `_cacheId`) and its
operations (`set`, `get`, `delete`, `clear`, `save`, `load`, `loadFile`,
`loadFileStream`, `destroy`, `scheduleBatchWrite`, `flushPendingWrites`).
Stateful methods become explicit state-passing functions; the file system
is a finite map from paths to snapshot texts; emitted events are returned
as lists; the one-shot batch-write timer is an armed flag together with an
explicit firing step.
-/

namespace FlatCacheSpec

/-- An entry of the cache: key, value, optional absolute expiration
timestamp.  Mirrors the `{ key, value, expires }` objects that
`FlatCache.save` serializes and `loadFile` replays. -/
structure CacheEntry (V : Type) where
  key : String
  value : V
  expires : Option Nat
deriving DecidableEq, Repr

/-- An optional expiration is past at time `now` iff it is set and earlier
than `now`. -/
def isExpired (now : Nat) : Option Nat → Bool
  | none => false
  | some e => decide (e < now)

/-- Modelled from the spec: the Memory Store (`CacheableMemory`, imported
from the `cacheable` package, whose source is not under `src/`): the
authoritative key/value map with optional expiration.  Keys are unique
within the store. -/
structure Mem (V : Type) where
  entries : List (CacheEntry V)
deriving DecidableEq, Repr

def Mem.empty : Mem V := ⟨[]⟩

/-- The Memory Store's key list. -/
def Mem.keysList (m : Mem V) : List String := m.entries.map (·.key)

/-- Modelled from the spec: `set(key, value, {expire})` inserts or replaces
the entry for `key`, keeping keys unique. -/
def Mem.set (m : Mem V) (k : String) (v : V) (exp : Option Nat) : Mem V :=
  if m.entries.any (fun e => e.key == k) then
    ⟨m.entries.map (fun e => if e.key == k then ⟨k, v, exp⟩ else e)⟩
  else
    ⟨m.entries ++ [⟨k, v, exp⟩]⟩

/-- Modelled from the spec: `get(key)` returns the stored value unless the
entry is absent or its expiration is past ("an entry present in the Memory
Store with a past `expiresAt` must not be observable via `get`"). -/
def Mem.get (m : Mem V) (now : Nat) (k : String) : Option V :=
  match m.entries.find? (fun e => e.key == k) with
  | none => none
  | some e => if isExpired now e.expires then none else some e.value

/-- Modelled from the spec: `delete(key)` removes the entry for `key`. -/
def Mem.delete (m : Mem V) (k : String) : Mem V :=
  ⟨m.entries.filter (fun e => e.key != k)⟩

/-- Modelled from the spec: `items` is an iterable snapshot of all live
(unexpired) entries. -/
def Mem.items (m : Mem V) (now : Nat) : List (CacheEntry V) :=
  m.entries.filter (fun e => !isExpired now e.expires)

/-- `FastLRU` (the Recency Tracker): modelled as its list of keys in
most-recently-used-first order (the source's map-backed doubly linked list,
whose keys are unique).  `touch`: an existing key moves to the front
(`moveToFront`); a new key is added at the front (`addToFront`) and, when
the map size exceeds the capacity, `removeLRU` drops the tail (the last,
least-recently-used key). -/
def lruTouch (cap : Nat) (k : String) (l : List String) : List String :=
  if k ∈ l then k :: l.erase k
  else
    let l1 := k :: l
    if cap < l1.length then l1.dropLast else l1

/-- Lifecycle notifications emitted by the Cache Facade
(`FlatCacheEvents`). -/
inductive Event where
  | save
  | load
  | delete (key : String)
  | clear
  | destroy
  | error
  | expired
deriving DecidableEq, Repr

/-- The file-system fragment the cache touches: a finite map from paths to
snapshot texts. -/
abbrev FS (T : Type) := List (String × T)

def fsRead (fs : FS T) (p : String) : Option T :=
  (fs.find? (fun q => q.1 == p)).map (·.2)

def fsWrite (fs : FS T) (p : String) (d : T) : FS T :=
  (p, d) :: fs.filter (fun q => q.1 != p)

def fsRemove (fs : FS T) (p : String) : FS T :=
  fs.filter (fun q => q.1 != p)

/-- The Snapshot Codec (the `flatted` `stringify`/`parse` pair, an external
collaborator): a pair of functions `encode : items → text` and
`decode : text → items`.  The codec contract (round-tripping arbitrary
nesting/sharing) is taken as a hypothesis where a theorem needs it. -/
structure Codec (V T : Type) where
  encode : List (CacheEntry V) → T
  decode : T → List (CacheEntry V)

/-- The trivial codec on an abstract text type, witnessing the codec
contract. -/
def idCodec (V : Type) : Codec V (List (CacheEntry V)) :=
  { encode := fun xs => xs, decode := fun xs => xs }

/-- The `FlatCache` instance state.  Fields mirror the class fields:
`mem` is `_cache`, `lru` is `_lruCache` (keys, MRU first), `dirty` is
`_changesSinceLastSave`, `snapText`/`snapValid` are
`_serializationCache`/`_serializationCacheValid`, `pending` is
`_pendingWrites`, `timer` is whether `_batchWriteTimer` is armed. -/
structure FC (V T : Type) where
  mem : Mem V
  lru : List String
  lruCap : Nat
  dirty : Bool
  snapText : Option T
  snapValid : Bool
  pending : List (String × V)
  timer : Bool
  batchSize : Nat
  batchDelay : Nat
  cacheDir : String
  cacheId : String
deriving DecidableEq, Repr

/-- `cacheFilePath`: `{cacheDir}/{cacheId}`. -/
def FC.cacheFilePath (s : FC V T) : String :=
  s.cacheDir ++ "/" ++ s.cacheId

/-- A freshly constructed `FlatCache` (constructor defaults: empty store,
clean, no snapshot, no pending writes, no timer). -/
def FC.init (cacheDir cacheId : String) (lruCap batchSize batchDelay : Nat) :
    FC V T :=
  { mem := Mem.empty
    lru := []
    lruCap := lruCap
    dirty := false
    snapText := none
    snapValid := false
    pending := []
    timer := false
    batchSize := batchSize
    batchDelay := batchDelay
    cacheDir := cacheDir
    cacheId := cacheId }

/-- JS `Map.set` on the Pending-Write Set: replace in place, or append a
new binding. -/
def pendingSet (l : List (String × V)) (k : String) (v : V) :
    List (String × V) :=
  if l.any (fun q => q.1 == k) then
    l.map (fun q => if q.1 == k then (k, v) else q)
  else l ++ [(k, v)]

/-- `flushPendingWrites`: cancel the batch timer and clear the
Pending-Write Set (no disk I/O). -/
def FC.flushPendingWrites (s : FC V T) : FC V T :=
  { s with timer := false, pending := [] }

/-- `scheduleBatchWrite`: return immediately if a timer is armed; else
flush synchronously if the pending size reached `_batchWriteSize`; else arm
the delay timer. -/
def FC.scheduleBatchWrite (s : FC V T) : FC V T :=
  if s.timer then s
  else if s.batchSize ≤ s.pending.length then s.flushPendingWrites
  else { s with timer := true }

/-- The armed batch timer firing: its callback runs `flushPendingWrites`. -/
def FC.timerFire (s : FC V T) : FC V T :=
  s.flushPendingWrites

/-- `set(key, value, ttl?)`: store in the Memory Store (ttl is relative,
so the absolute expiration is `now + ttl`), touch the Recency Tracker, set
the dirty flag, invalidate the snapshot cache, record the pending write and
run `scheduleBatchWrite`. -/
def FC.set (now : Nat) (k : String) (v : V) (ttl : Option Nat)
    (s : FC V T) : FC V T :=
  FC.scheduleBatchWrite
    { s with
      mem := s.mem.set k v (ttl.map (fun t => now + t))
      lru := lruTouch s.lruCap k s.lru
      dirty := true
      snapValid := false
      pending := pendingSet s.pending k v }

/-- `get(key)`: consult the Memory Store (sole source of truth for
expiration); touch the tracker on a hit, evict the key from the tracker on
a miss. -/
def FC.get (now : Nat) (k : String) (s : FC V T) : Option V × FC V T :=
  match s.mem.get now k with
  | some v => (some v, { s with lru := lruTouch s.lruCap k s.lru })
  | none => (none, { s with lru := s.lru.erase k })

/-- `delete(key)`: remove from the Memory Store, the Recency Tracker and
the Pending-Write Set, set the dirty flag, invalidate the snapshot cache,
emit `delete(key)`. -/
def FC.delete (k : String) (s : FC V T) : FC V T × List Event :=
  ({ s with
      mem := s.mem.delete k
      lru := s.lru.erase k
      dirty := true
      snapValid := false
      pending := s.pending.filter (fun q => q.1 != k) },
   [Event.delete k])

/-- `save(force)`: no-op unless `dirty || force`.  Otherwise flush pending
writes, list the Memory Store's current items, reuse the snapshot-cache
text if `_serializationCacheValid && _serializationCache`, else encode
fresh and mark the snapshot valid; then write the file.  `writeOk` models
whether `fs.writeFileSync` succeeds; on failure the `catch` block emits
`error` and the dirty flag stays as it was. -/
def FC.save (C : Codec V T) (now : Nat) (force writeOk : Bool)
    (s : FC V T) (fs : FS T) : FC V T × FS T × List Event :=
  if s.dirty || force then
    let s1 := s.flushPendingWrites
    let items := s1.mem.items now
    let ds :=
      match s1.snapValid, s1.snapText with
      | true, some t => (t, s1)
      | _, _ =>
        let d := C.encode items
        (d, { s1 with snapText := some d, snapValid := true })
    if writeOk then
      ({ ds.2 with dirty := false },
       fsWrite fs s.cacheFilePath ds.1, [Event.save])
    else
      (ds.2, fs, [Event.error])
  else (s, fs, [])

/-- `loadFile(pathToFile)`: if the file exists, decode it and replay every
decoded entry into the Memory Store with its original expiration, then set
the dirty flag.  If the file does not exist, do nothing.  `loadFile` itself
emits no events. -/
def FC.loadFile (C : Codec V T) (p : String) (s : FC V T) (fs : FS T) :
    FC V T × List Event :=
  match fsRead fs p with
  | some data =>
    ({ s with
        mem := (C.decode data).foldl
          (fun m e => m.set e.key e.value e.expires) s.mem
        dirty := true }, [])
  | none => (s, [])

/-- `load(cacheId?, cacheDir?)`: `loadFile` on the instance's own cache
file path, then emit `load` (the surrounding `try`/`catch` would emit
`error` on an exception; the embedded operations are total). -/
def FC.load (C : Codec V T) (s : FC V T) (fs : FS T) :
    FC V T × List Event :=
  let r := FC.loadFile C s.cacheFilePath s fs
  (r.1, r.2 ++ [Event.load])

/-- `loadFileStream(pathToFile, onProgress, onEnd, onError?)`: when the
file exists, the accumulated text is decoded exactly as in `loadFile`; when
it does not, an `error` event is emitted and `onError` is invoked.  The
returned Bool records whether `onError` was invoked. -/
def FC.loadFileStream (C : Codec V T) (p : String) (s : FC V T)
    (fs : FS T) : FC V T × List Event × Bool :=
  match fsRead fs p with
  | some data =>
    ({ s with
        mem := (C.decode data).foldl
          (fun m e => m.set e.key e.value e.expires) s.mem
        dirty := true }, [], false)
  | none => (s, [Event.error], true)

/-- `clear()`: clear the Memory Store, the Recency Tracker and the
Pending-Write Set, set the dirty flag, invalidate the snapshot cache, then
`save()` and emit `clear`. -/
def FC.clear (C : Codec V T) (now : Nat) (writeOk : Bool)
    (s : FC V T) (fs : FS T) : FC V T × FS T × List Event :=
  let s1 :=
    { s with
      mem := Mem.empty
      lru := []
      dirty := true
      snapValid := false
      pending := [] }
  let r := FC.save C now false writeOk s1 fs
  (r.1, r.2.1, r.2.2 ++ [Event.clear])

/-- `destroy()`: clear the Memory Store and tracker, drop the snapshot
cache, flush pending writes, remove the cache file, clear the dirty flag,
emit `destroy` (the auto-persist timer is outside this state). -/
def FC.destroy (s : FC V T) (fs : FS T) : FC V T × FS T × List Event :=
  ({ s with
      mem := Mem.empty
      lru := []
      snapText := none
      snapValid := false
      pending := []
      timer := false
      dirty := false },
   fsRemove fs s.cacheFilePath, [Event.destroy])

/-! ### Concrete instantiations used in closed statements

Values are `Nat` and the snapshot text is the entry list itself (the
trivial codec), so all closed statements evaluate. -/

abbrev NatText := List (CacheEntry Nat)

def natCodec : Codec Nat NatText := idCodec Nat

def sample0 : FC Nat NatText := FC.init "dir" "c1" 1000 10 100

def sampleDirty : FC Nat NatText := { sample0 with dirty := true }

def sampleTimerOn : FC Nat NatText := { sample0 with timer := true }

def sampleB2 : FC Nat NatText := FC.init "dir" "c1" 1000 2 100

def samplePendingFull : FC Nat NatText :=
  { sampleB2 with pending := [("a", 1), ("b", 2)] }

def sampleA : FC Nat NatText := FC.set 0 "a" 5 none sample0

def sampleFS : FS NatText := [("dir/other", [⟨"b", 2, none⟩])]

/-- `sampleA` with the key evicted from the tracker: the value is still in
the Memory Store. -/
def sampleAEvicted : FC Nat NatText := { sampleA with lru := [] }

/-- Applying a finite sequence of `set(key, value, ttl)` calls. -/
def applySets (now : Nat) (ops : List (String × V × Option Nat))
    (s : FC V T) : FC V T :=
  ops.foldl (fun s op => FC.set now op.1 op.2.1 op.2.2 s) s

/-- The serialized-snapshot invariant: a valid snapshot-cache text is
exactly the encode of the Memory Store's current (live) item list. -/
def snapInv (C : Codec V T) (now : Nat) (s : FC V T) : Prop :=
  s.snapValid = true → s.snapText = some (C.encode (s.mem.items now))

/-- One facade operation, as a relation from pre-state to post-state: every
operation of the embedding except `loadFile`/`load`. -/
inductive Step (C : Codec V T) (now : Nat) : FC V T → FC V T → Prop where
  | set (k : String) (v : V) (ttl : Option Nat) (s : FC V T) :
      Step C now s (FC.set now k v ttl s)
  | get (k : String) (s : FC V T) : Step C now s (FC.get now k s).2
  | del (k : String) (s : FC V T) : Step C now s (FC.delete k s).1
  | save (force writeOk : Bool) (s : FC V T) (fs : FS T) :
      Step C now s (FC.save C now force writeOk s fs).1
  | clear (writeOk : Bool) (s : FC V T) (fs : FS T) :
      Step C now s (FC.clear C now writeOk s fs).1
  | destroy (s : FC V T) (fs : FS T) : Step C now s (FC.destroy s fs).1
  | schedule (s : FC V T) : Step C now s (FC.scheduleBatchWrite s)
  | flush (s : FC V T) : Step C now s s.flushPendingWrites
  | fire (s : FC V T) : Step C now s s.timerFire

/-! ### Claims -/

/-- C10: `delete(key)` emits exactly the `delete(key)` notification and sets
the dirty flag, unconditionally in the state — so at the notification and
dirty-flag level, a delete of a key absent from the Memory Store is
indistinguishable from a delete of a present key. -/
theorem C10_delete_unconditional (s : FC V T) (k : String) :
    (FC.delete k s).2 = [Event.delete k] ∧ (FC.delete k s).1.dirty = true :=
  ⟨rfl, rfl⟩

/-- C4 counterexample: `loadFile` on a path that does not exist emits no
notification at all (in particular no `error`) — it is a silent no-op — so
the claim that it raises/reports an error to the caller is false.  Here the
file system is empty and the path is `dir/absent`. -/
theorem C4_counterexample :
    (FC.loadFile natCodec "dir/absent" sample0 []).1 = sample0 ∧
    (FC.loadFile natCodec "dir/absent" sample0 []).2 = [] := by
  constructor <;> rfl

/-- C4 (amended): `loadFile` on a non-existent path is a silent no-op —
it emits no error and leaves the target cache instance's contents (its whole
state) unchanged; the streaming variant `loadFileStream` is the one that
emits an `error` notification and invokes its `onError` callback, also
leaving the state unchanged. -/
theorem C4_loadFile_missing (C : Codec V T) (p : String) (s : FC V T)
    (fs : FS T) (h : fsRead fs p = none) :
    FC.loadFile C p s fs = (s, []) ∧
    FC.loadFileStream C p s fs = (s, [Event.error], true) := by
  unfold FC.loadFile FC.loadFileStream
  rw [h]
  exact ⟨rfl, rfl⟩

theorem C4_loadFile_missing_witness :
    FC.loadFile natCodec "dir/absent" sample0 [] = (sample0, []) ∧
    FC.loadFileStream natCodec "dir/absent" sample0 [] =
      (sample0, [Event.error], true) :=
  C4_loadFile_missing natCodec "dir/absent" sample0 [] rfl

/-- C3 counterexample: with batch threshold 2, the first `set` arms the
delay timer; the second `set` records its key, bringing the Pending-Write
Set to the threshold size, yet `scheduleBatchWrite` returns early without
flushing because a timer is already armed: after the call returns, the
pending set still holds both keys, refuting "flushed immediately
(synchronously, before the call returns)". -/
theorem C3_counterexample :
    ((FC.set 0 "b" 2 none (FC.set 0 "a" 1 none sampleB2)).batchSize ≤
      (FC.set 0 "b" 2 none (FC.set 0 "a" 1 none sampleB2)).pending.length) ∧
    (FC.set 0 "b" 2 none (FC.set 0 "a" 1 none sampleB2)).pending =
      [("a", 1), ("b", 2)] ∧
    (FC.set 0 "b" 2 none (FC.set 0 "a" 1 none sampleB2)).timer = true := by
  decide

/-- C3 (amended): `scheduleBatchWrite` is a no-op while a flush is already
scheduled (timer armed), even if the pending size has reached the batch
threshold; when no flush is scheduled, it flushes synchronously if the
Pending-Write Set size has reached the threshold, and otherwise arms the
delay timer, whose firing flushes the set. -/
theorem C3_scheduleBatchWrite_policy (s : FC V T) :
    (s.timer = true → FC.scheduleBatchWrite s = s) ∧
    (s.timer = false → s.batchSize ≤ s.pending.length →
      FC.scheduleBatchWrite s = s.flushPendingWrites ∧
      (FC.scheduleBatchWrite s).pending = []) ∧
    (s.timer = false → s.pending.length < s.batchSize →
      FC.scheduleBatchWrite s = { s with timer := true } ∧
      (FC.timerFire (FC.scheduleBatchWrite s)).pending = []) := by
  refine ⟨fun ht => ?_, fun ht hge => ?_, fun ht hlt => ?_⟩
  · simp [FC.scheduleBatchWrite, ht]
  · constructor <;>
      simp [FC.scheduleBatchWrite, FC.flushPendingWrites, ht, hge]
  · constructor <;>
      simp [FC.scheduleBatchWrite, FC.flushPendingWrites, FC.timerFire, ht,
        Nat.not_le.mpr hlt]

theorem C3_scheduleBatchWrite_policy_witness :
    FC.scheduleBatchWrite sampleTimerOn = sampleTimerOn ∧
    (FC.scheduleBatchWrite samplePendingFull).pending = [] ∧
    FC.scheduleBatchWrite sample0 = { sample0 with timer := true } :=
  ⟨(C3_scheduleBatchWrite_policy sampleTimerOn).1 rfl,
   ((C3_scheduleBatchWrite_policy samplePendingFull).2.1 rfl (by decide)).2,
   ((C3_scheduleBatchWrite_policy sample0).2.2 rfl (by decide)).1⟩

/-- C6: when an executing `save` hits a file-system write failure, the
operation still returns normally (the embedded `save` is a total function:
the `catch` swallows the exception), emits exactly an `error` notification,
leaves the dirty flag set so that a later save can retry, and leaves the
file system unchanged. -/
theorem C6_save_write_failure (C : Codec V T) (now : Nat) (force : Bool)
    (s : FC V T) (fs : FS T) (h : s.dirty = true) :
    (FC.save C now force false s fs).2.2 = [Event.error] ∧
    (FC.save C now force false s fs).1.dirty = true ∧
    (FC.save C now force false s fs).2.1 = fs := by
  obtain ⟨mem, lru, cap, dirty, snapText, snapValid, pending, timer, bs, bd,
    cd, ci⟩ := s
  subst h
  cases snapValid <;> cases snapText <;>
    simp [FC.save, FC.flushPendingWrites]

theorem C6_save_write_failure_witness :
    (FC.save natCodec 0 false false sampleDirty []).2.2 = [Event.error] ∧
    (FC.save natCodec 0 false false sampleDirty []).1.dirty = true ∧
    (FC.save natCodec 0 false false sampleDirty []).2.1 = [] :=
  C6_save_write_failure natCodec 0 false sampleDirty [] rfl

/-- C5: `save(force=false)` is a complete no-op (state, file system and
events) unless the dirty flag is set; and with successful writes, a second
`save()` with no intervening mutation changes nothing further (so the two
calls perform only one disk write's worth of state change) and the dirty
flag is false after both calls. -/
theorem C5_save_noop_idempotent (C : Codec V T) (now : Nat)
    (s : FC V T) (fs : FS T) :
    (s.dirty = false → FC.save C now false true s fs = (s, fs, [])) ∧
    FC.save C now false true (FC.save C now false true s fs).1
        (FC.save C now false true s fs).2.1 =
      ((FC.save C now false true s fs).1,
       (FC.save C now false true s fs).2.1, []) ∧
    (FC.save C now false true s fs).1.dirty = false := by
  obtain ⟨mem, lru, cap, dirty, snapText, snapValid, pending, timer, bs, bd,
    cd, ci⟩ := s
  cases dirty <;> cases snapValid <;> cases snapText <;>
    simp [FC.save, FC.flushPendingWrites]

theorem C5_save_noop_idempotent_witness :
    FC.save natCodec 0 false true sample0 [] = (sample0, [], []) ∧
    FC.save natCodec 0 false true
        (FC.save natCodec 0 false true sampleDirty []).1
        (FC.save natCodec 0 false true sampleDirty []).2.1 =
      ((FC.save natCodec 0 false true sampleDirty []).1,
       (FC.save natCodec 0 false true sampleDirty []).2.1, []) ∧
    (FC.save natCodec 0 false true sampleDirty []).1.dirty = false :=
  ⟨(C5_save_noop_idempotent natCodec 0 sample0 []).1 rfl,
   (C5_save_noop_idempotent natCodec 0 sampleDirty []).2⟩

/-! ### Memory-Store lemmas -/

/-- The first component of `get` is the Memory Store lookup (the tracker
update in the second component never affects the returned value). -/
theorem FC.get_fst (now : Nat) (k : String) (s : FC V T) :
    (FC.get now k s).1 = s.mem.get now k := by
  unfold FC.get
  cases s.mem.get now k <;> rfl

/-- After `Mem.delete k`, looking up `k` yields nothing. -/
theorem Mem.get_delete_self (m : Mem V) (now : Nat) (k : String) :
    (m.delete k).get now k = none := by
  unfold Mem.get Mem.delete
  have h : (m.entries.filter (fun e => e.key != k)).find?
      (fun e => e.key == k) = none := by
    rw [List.find?_eq_none]
    intro e he
    have := (List.mem_filter.1 he).2
    simp_all
  rw [h]

/-- Replacing the entry of key `k` does not change `find?` at a key `q ≠ k`. -/
theorem find?_map_replace (l : List (CacheEntry V)) (k q : String) (v : V)
    (exp : Option Nat) (hne : q ≠ k) :
    (l.map (fun e => if e.key == k then ⟨k, v, exp⟩ else e)).find?
        (fun e => e.key == q) =
      l.find? (fun e => e.key == q) := by
  induction l with
  | nil => rfl
  | cons e es ih =>
    by_cases hk : e.key = k
    · have h1 : (if (e.key == k) = true then (⟨k, v, exp⟩ : CacheEntry V)
          else e) = ⟨k, v, exp⟩ := by simp [hk]
      simp only [List.map_cons, h1]
      rw [List.find?_cons_of_neg, List.find?_cons_of_neg]
      · exact ih
      · simp [hk]
        exact fun h => hne h.symm
      · simp
        exact fun h => hne h.symm
    · have h1 : (if (e.key == k) = true then (⟨k, v, exp⟩ : CacheEntry V)
          else e) = e := by simp [hk]
      simp only [List.map_cons, h1]
      by_cases hq : e.key = q
      · rw [List.find?_cons_of_pos, List.find?_cons_of_pos] <;> simp [hq]
      · rw [List.find?_cons_of_neg, List.find?_cons_of_neg]
        · exact ih
        · simp [hq]
        · simp [hq]

/-- `Mem.set` at key `k` does not change `find?` at a key `q ≠ k`. -/
theorem find?_key_set_ne (m : Mem V) (k q : String) (v : V)
    (exp : Option Nat) (hne : q ≠ k) :
    ((m.set k v exp).entries).find? (fun e => e.key == q) =
      m.entries.find? (fun e => e.key == q) := by
  unfold Mem.set
  by_cases h : m.entries.any (fun e => e.key == k)
  · rw [if_pos h]
    exact find?_map_replace m.entries k q v exp hne
  · rw [if_neg h]
    rw [List.find?_append]
    have hb : ((⟨k, v, exp⟩ : CacheEntry V).key == q) = false := by
      simp only [beq_eq_false_iff_ne, ne_eq]
      exact fun hh => hne hh.symm
    have h2 : ([(⟨k, v, exp⟩ : CacheEntry V)]).find?
        (fun e => e.key == q) = none := by
      simp [List.find?, hb]
    rw [h2]
    cases m.entries.find? (fun e => e.key == q) <;> rfl

/-- Replaying a list of entries into the Memory Store does not change
`find?` at a key that appears in none of them. -/
theorem find?_key_replay (items : List (CacheEntry V)) (m : Mem V)
    (q : String) (hq : q ∉ items.map (·.key)) :
    ((items.foldl (fun m e => m.set e.key e.value e.expires) m).entries).find?
        (fun e => e.key == q) =
      m.entries.find? (fun e => e.key == q) := by
  induction items generalizing m with
  | nil => rfl
  | cons e es ih =>
    simp only [List.map_cons, List.mem_cons, not_or] at hq
    simp only [List.foldl_cons]
    rw [ih _ hq.2, find?_key_set_ne _ _ _ _ _ hq.1]

/-- C8: after `delete(k)`, `get(k)` is absent, and `k` is absent from both
the Memory Store's key list and the Recency Tracker (whose keys are unique,
as in the map-backed source structure). -/
theorem C8_delete_removes (now : Nat) (k : String) (s : FC V T)
    (hnd : s.lru.Nodup) :
    (FC.get now k (FC.delete k s).1).1 = none ∧
    k ∉ ((FC.delete k s).1).mem.keysList ∧
    k ∉ ((FC.delete k s).1).lru := by
  refine ⟨?_, ?_, ?_⟩
  · rw [FC.get_fst]
    exact Mem.get_delete_self s.mem now k
  · intro hk
    rcases List.mem_map.1 hk with ⟨e, he, hkey⟩
    have := (List.mem_filter.1 he).2
    simp_all
  · exact hnd.not_mem_erase

theorem C8_delete_removes_witness :
    (FC.get 0 "a" (FC.delete "a" sampleA).1).1 = none ∧
    "a" ∉ ((FC.delete "a" sampleA).1).mem.keysList ∧
    "a" ∉ ((FC.delete "a" sampleA).1).lru :=
  C8_delete_removes 0 "a" sampleA (by decide)

/-- C9: `loadFile` on an existing file merges the decoded entries into the
Memory Store without clearing it first: every key that appears in no decoded
entry has exactly the same entry (the same `find?` result) in the Memory
Store after `loadFile` as before. -/
theorem C9_loadFile_merges (C : Codec V T) (p : String) (s : FC V T)
    (fs : FS T) (data : T) (hp : fsRead fs p = some data) (q : String)
    (hq : q ∉ (C.decode data).map (·.key)) :
    (((FC.loadFile C p s fs).1).mem.entries).find? (fun e => e.key == q) =
      s.mem.entries.find? (fun e => e.key == q) := by
  unfold FC.loadFile
  rw [hp]
  exact find?_key_replay _ _ _ hq

theorem C9_loadFile_merges_witness :
    ((((FC.loadFile natCodec "dir/other" sampleA sampleFS).1).mem.entries).find?
        (fun e => e.key == "a")) =
      sampleA.mem.entries.find? (fun e => e.key == "a") :=
  C9_loadFile_merges natCodec "dir/other" sampleA sampleFS
    [⟨"b", 2, none⟩] rfl "a" (by decide)

/-! ### Recency-Tracker lemmas -/

/-- `touch` never grows the tracker beyond its capacity. -/
theorem lruTouch_length_le (cap : Nat) (k : String) (l : List String)
    (h : l.length ≤ cap) : (lruTouch cap k l).length ≤ cap := by
  unfold lruTouch
  by_cases hm : k ∈ l
  · rw [if_pos hm]
    have h1 : 1 ≤ l.length := List.length_pos.mpr (List.ne_nil_of_mem hm)
    simp only [List.length_cons, List.length_erase_of_mem hm]
    omega
  · rw [if_neg hm]
    show (if cap < (k :: l).length then (k :: l).dropLast
      else (k :: l)).length ≤ cap
    by_cases hc : cap < (k :: l).length
    · rw [if_pos hc]
      simp only [List.length_dropLast, List.length_cons]
      omega
    · rw [if_neg hc]
      simp only [List.length_cons] at hc ⊢
      omega

/-- Touching a fresh key under the capacity invariant prepends it and trims
to the capacity. -/
theorem lruTouch_not_mem (cap : Nat) (k : String) (l : List String)
    (hk : k ∉ l) (h : l.length ≤ cap) :
    lruTouch cap k l = (k :: l).take cap := by
  unfold lruTouch
  rw [if_neg hk]
  show (if cap < (k :: l).length then (k :: l).dropLast else (k :: l)) = _
  by_cases hc : cap < (k :: l).length
  · rw [if_pos hc]
    simp only [List.length_cons] at hc
    have hcap : cap = l.length := by omega
    subst hcap
    rw [List.dropLast_eq_take]
    simp
  · rw [if_neg hc]
    exact (List.take_of_length_le (Nat.not_lt.mp hc)).symm

/-- Touching a sequence of distinct keys into an empty tracker leaves
exactly the most recently touched `cap` of them, most recent first: the
evicted keys are exactly the least-recently-touched ones. -/
theorem lruTouch_foldl (cap : Nat) (ks : List String) :
    ks.Nodup →
      ks.foldl (fun acc x => lruTouch cap x acc) [] =
        ks.reverse.take cap := by
  induction ks using List.reverseRecOn with
  | nil => intro _; simp
  | append_singleton xs x ih =>
    intro hnd
    rcases List.nodup_append.1 hnd with ⟨hxs, _, hdisj⟩
    have hx : x ∉ xs := fun hmem => hdisj hmem (List.mem_singleton_self x)
    rw [List.foldl_append, ih hxs]
    simp only [List.foldl_cons, List.foldl_nil, List.reverse_append,
      List.reverse_cons, List.reverse_nil, List.nil_append,
      List.singleton_append]
    have hx2 : x ∉ xs.reverse.take cap := fun hmem =>
      hx (List.mem_reverse.1 (List.take_subset _ _ hmem))
    have hlen : (xs.reverse.take cap).length ≤ cap := by
      rw [List.length_take]
      exact Nat.min_le_left _ _
    rw [lruTouch_not_mem cap x _ hx2 hlen]
    cases cap with
    | zero => rfl
    | succ n =>
      simp only [List.take_succ_cons, List.take_take]
      have hmin : n ⊓ (n + 1) = n := Nat.min_eq_left (Nat.le_succ n)
      rw [hmin]

/-- C7: (i) touching any sequence of distinct keys into an empty Recency
Tracker leaves exactly the most recently touched `cap` keys (MRU first), so
the keys evicted from the tracker are exactly the least-recently-touched
ones and the tracker never exceeds its capacity; (ii) a single `touch`
preserves the capacity bound; (iii) tracker eviction never removes values
from the Memory Store: `get` on a key unexpired in the Memory Store returns
its value whatever the tracker contents — in particular for a state whose
tracker no longer holds the key. -/
theorem C7_lru_capacity_eviction (cap : Nat) (ks : List String)
    (hnd : ks.Nodup) (k : String) (l : List String) (hlen : l.length ≤ cap)
    (now : Nat) (q : String) (v : V) (s : FC V T)
    (hget : s.mem.get now q = some v) :
    ks.foldl (fun acc x => lruTouch cap x acc) [] = ks.reverse.take cap ∧
    (lruTouch cap k l).length ≤ cap ∧
    (FC.get now q s).1 = some v :=
  ⟨lruTouch_foldl cap ks hnd, lruTouch_length_le cap k l hlen,
    (FC.get_fst now q s).trans hget⟩

theorem C7_lru_capacity_eviction_witness :
    (["a", "b", "c"].foldl (fun acc x => lruTouch 2 x acc) [] =
      ["a", "b", "c"].reverse.take 2) ∧
    (lruTouch 2 "d" ["a", "b"]).length ≤ 2 ∧
    (FC.get 0 "a" sampleAEvicted).1 = some 5 :=
  C7_lru_capacity_eviction 2 ["a", "b", "c"] (by decide) "d" ["a", "b"]
    (by decide) 0 "a" 5 sampleAEvicted (by decide)

/-! ### Serialized-snapshot-cache lemmas -/

/-- `scheduleBatchWrite` only touches the timer and the pending set. -/
theorem FC.scheduleBatchWrite_fields (s : FC V T) :
    (FC.scheduleBatchWrite s).snapValid = s.snapValid ∧
    (FC.scheduleBatchWrite s).snapText = s.snapText ∧
    (FC.scheduleBatchWrite s).mem = s.mem ∧
    (FC.scheduleBatchWrite s).dirty = s.dirty ∧
    (FC.scheduleBatchWrite s).cacheDir = s.cacheDir ∧
    (FC.scheduleBatchWrite s).cacheId = s.cacheId := by
  unfold FC.scheduleBatchWrite FC.flushPendingWrites
  by_cases h1 : s.timer = true
  · rw [if_pos h1]
    exact ⟨rfl, rfl, rfl, rfl, rfl, rfl⟩
  · rw [if_neg h1]
    by_cases h2 : s.batchSize ≤ s.pending.length
    · rw [if_pos h2]
      exact ⟨rfl, rfl, rfl, rfl, rfl, rfl⟩
    · rw [if_neg h2]
      exact ⟨rfl, rfl, rfl, rfl, rfl, rfl⟩

/-- `set` clears the snapshot-valid flag. -/
theorem FC.set_snapValid (now : Nat) (k : String) (v : V) (ttl : Option Nat)
    (s : FC V T) : (FC.set now k v ttl s).snapValid = false := by
  unfold FC.set
  exact (FC.scheduleBatchWrite_fields _).1

/-- A state whose snapshot-valid flag is off satisfies the snapshot
invariant vacuously. -/
theorem snapInv_of_invalid (C : Codec V T) (now : Nat) {s : FC V T}
    (h : s.snapValid = false) : snapInv C now s := by
  intro hv
  rw [h] at hv
  cases hv

/-- The snapshot invariant transfers along equality of the three fields it
mentions. -/
theorem snapInv_of_fields (C : Codec V T) (now : Nat) {s s' : FC V T}
    (hv : s'.snapValid = s.snapValid) (ht : s'.snapText = s.snapText)
    (hm : s'.mem = s.mem) (h : snapInv C now s) : snapInv C now s' := by
  intro hvalid
  rw [ht, hm]
  exact h (hv.symm.trans hvalid)

/-- `save` preserves the snapshot invariant: it either reuses a valid
snapshot unchanged or installs a fresh encode of the current items. -/
theorem FC.save_snapInv (C : Codec V T) (now : Nat) (force writeOk : Bool)
    (s : FC V T) (fs : FS T) (h : snapInv C now s) :
    snapInv C now (FC.save C now force writeOk s fs).1 := by
  obtain ⟨mem, lru, cap, dirty, snapText, snapValid, pending, timer, bs, bd,
    cd, ci⟩ := s
  unfold snapInv at h ⊢
  cases dirty <;> cases force <;> cases writeOk <;> cases snapValid <;>
    cases snapText <;>
    simp_all [FC.save, FC.flushPendingWrites]

/-- `clear` preserves the snapshot invariant: its internal `save` encodes
the cleared store fresh. -/
theorem FC.clear_snapInv (C : Codec V T) (now : Nat) (writeOk : Bool)
    (s : FC V T) (fs : FS T) :
    snapInv C now (FC.clear C now writeOk s fs).1 := by
  unfold FC.clear
  exact FC.save_snapInv C now false writeOk _ fs
    (snapInv_of_invalid C now rfl)

/-- Every facade operation except `loadFile`/`load` preserves the snapshot
invariant. -/
theorem Step.snapInv_preserved (C : Codec V T) (now : Nat)
    {s s' : FC V T} (hstep : Step C now s s') (h : snapInv C now s) :
    snapInv C now s' := by
  cases hstep with
  | set k v ttl s => exact snapInv_of_invalid C now (FC.set_snapValid now k v ttl s)
  | get k s =>
    unfold FC.get
    cases hv : s.mem.get now k <;>
      exact snapInv_of_fields C now rfl rfl rfl h
  | del k s => exact snapInv_of_invalid C now rfl
  | save force writeOk s fs => exact FC.save_snapInv C now force writeOk s fs h
  | clear writeOk s fs => exact FC.clear_snapInv C now writeOk s fs
  | destroy s fs => exact snapInv_of_invalid C now rfl
  | schedule s =>
    rcases FC.scheduleBatchWrite_fields s with ⟨h1, h2, h3, _⟩
    exact snapInv_of_fields C now h1 h2 h3 h
  | flush s => exact snapInv_of_fields C now rfl rfl rfl h
  | fire s => exact snapInv_of_fields C now rfl rfl rfl h

/-- Reading back the path just written. -/
theorem fsRead_fsWrite_self (fs : FS T) (p : String) (d : T) :
    fsRead (fsWrite fs p d) p = some d := by
  unfold fsRead fsWrite
  rw [List.find?_cons_of_pos]
  · rfl
  · simp

/-- Under the snapshot invariant, an executing `save` writes exactly the
encode of the Memory Store's current items, whether it reuses the cached
snapshot or encodes fresh. -/
theorem FC.save_writes_current (C : Codec V T) (now : Nat) (force : Bool)
    (s : FC V T) (fs : FS T) (hd : s.dirty = true) (h : snapInv C now s) :
    fsRead ((FC.save C now force true s fs).2.1) s.cacheFilePath =
      some (C.encode (s.mem.items now)) := by
  obtain ⟨mem, lru, cap, dirty, snapText, snapValid, pending, timer, bs, bd,
    cd, ci⟩ := s
  subst hd
  unfold snapInv at h
  cases snapValid with
  | false =>
    cases snapText <;>
      simp [FC.save, FC.flushPendingWrites, fsRead_fsWrite_self,
        FC.cacheFilePath]
  | true =>
    cases snapText with
    | none =>
      simp [FC.save, FC.flushPendingWrites, fsRead_fsWrite_self,
        FC.cacheFilePath]
    | some t =>
      have ht := h rfl
      simp only [Option.some.injEq] at ht
      simp [FC.save, FC.flushPendingWrites, fsRead_fsWrite_self,
        FC.cacheFilePath, ht]

/-- C2 counterexample: `loadFile` mutates the cache's contents (it merges
decoded entries into the Memory Store and sets the dirty flag) but does
not clear `_serializationCacheValid`.  Trace: `set("a",1)`; `save()`
(caches the snapshot of `[a]` and marks it valid); `loadFile` of a file
holding `[b]` (the Memory Store now holds `[a, b]`, but the snapshot is
still marked valid); `save()` — it reuses the stale snapshot and writes a
text that omits `b`, i.e. a snapshot that does not reflect the Memory
Store's current contents. -/
theorem C2_counterexample :
    let r1 := FC.save natCodec 0 false true
      (FC.set 0 "a" 1 none sample0) sampleFS
    let s2 := (FC.loadFile natCodec "dir/other" r1.1 r1.2.1).1
    let r2 := FC.save natCodec 0 false true s2 r1.2.1
    s2.snapValid = true ∧ s2.dirty = true ∧
    fsRead r2.2.1 s2.cacheFilePath = some [⟨"a", 1, none⟩] ∧
    s2.mem.items 0 = [⟨"a", 1, none⟩, ⟨"b", 2, none⟩] ∧
    ([⟨"a", 1, none⟩] : NatText) ≠ [⟨"a", 1, none⟩, ⟨"b", 2, none⟩] := by
  decide

/-- C2 (amended): the snapshot-valid flag is cleared by the direct
mutations `set` and `delete` (and `clear`/`destroy` clear it before their
own work), and is set only immediately after a fresh encode during `save`;
every operation except `loadFile`/`load` preserves the invariant that a
valid snapshot text equals the encode of the Memory Store's current items;
consequently, on histories without loads, an executing `save` writes
exactly the encode of the current contents.  (`loadFile` breaks the first
conjunct of the original claim: it mutates contents without clearing the
flag, so after a load `save` can reuse a stale snapshot.) -/
theorem C2_snapshot_invariant (C : Codec V T) (now : Nat) :
    (∀ (k : String) (v : V) (ttl : Option Nat) (s : FC V T),
      (FC.set now k v ttl s).snapValid = false) ∧
    (∀ (k : String) (s : FC V T), ((FC.delete k s).1).snapValid = false) ∧
    (∀ (s s' : FC V T), Step C now s s' → snapInv C now s →
      snapInv C now s') ∧
    (∀ (force : Bool) (s : FC V T) (fs : FS T), s.dirty = true →
      snapInv C now s →
      fsRead ((FC.save C now force true s fs).2.1) s.cacheFilePath =
        some (C.encode (s.mem.items now))) :=
  ⟨fun k v ttl s => FC.set_snapValid now k v ttl s,
   fun _ _ => rfl,
   fun _ _ hstep h => Step.snapInv_preserved C now hstep h,
   fun force s fs hd h => FC.save_writes_current C now force s fs hd h⟩

theorem C2_snapshot_invariant_witness :
    (FC.set 0 "a" 1 none sample0).snapValid = false ∧
    snapInv natCodec 0 (FC.scheduleBatchWrite sampleDirty) ∧
    fsRead ((FC.save natCodec 0 false true sampleDirty []).2.1)
        sampleDirty.cacheFilePath =
      some (natCodec.encode (sampleDirty.mem.items 0)) :=
  ⟨(C2_snapshot_invariant natCodec 0).1 "a" 1 none sample0,
   (C2_snapshot_invariant natCodec 0).2.2.1 sampleDirty _
     (Step.schedule sampleDirty) (snapInv_of_invalid natCodec 0 rfl),
   (C2_snapshot_invariant natCodec 0).2.2.2 false sampleDirty [] rfl
     (snapInv_of_invalid natCodec 0 rfl)⟩

/-! ### Persistence round-trip lemmas -/

/-- `Mem.set` keeps the keys unique. -/
theorem Mem.set_keys_nodup (m : Mem V) (k : String) (v : V)
    (exp : Option Nat) (h : m.keysList.Nodup) :
    ((m.set k v exp).keysList).Nodup := by
  unfold Mem.set Mem.keysList at *
  by_cases ha : m.entries.any (fun e => e.key == k)
  · rw [if_pos ha]
    show ((m.entries.map
        (fun e => if e.key == k then (⟨k, v, exp⟩ : CacheEntry V) else e)).map
          (·.key)).Nodup
    have hmap : (m.entries.map
        (fun e => if e.key == k then (⟨k, v, exp⟩ : CacheEntry V) else e)).map
          (·.key) = m.entries.map (·.key) := by
      rw [List.map_map]
      apply List.map_congr_left
      intro e _
      by_cases hk : e.key = k
      · simp [hk]
      · simp [hk]
    rw [hmap]
    exact h
  · rw [if_neg ha]
    show ((m.entries ++ [(⟨k, v, exp⟩ : CacheEntry V)]).map (·.key)).Nodup
    rw [List.map_append]
    rw [List.nodup_append]
    refine ⟨h, List.nodup_singleton _, ?_⟩
    intro a hmem hmem2
    simp only [List.map_cons, List.map_nil, List.mem_singleton] at hmem2
    subst hmem2
    rcases List.mem_map.1 hmem with ⟨e, he, hkey⟩
    exact ha (List.any_eq_true.2 ⟨e, he, by simp [hkey]⟩)

/-- The live item list inherits key uniqueness from the store. -/
theorem Mem.items_keys_nodup (m : Mem V) (now : Nat)
    (h : m.keysList.Nodup) : ((m.items now).map (·.key)).Nodup := by
  unfold Mem.items Mem.keysList at *
  exact List.Nodup.sublist
    (List.Sublist.map _ (List.filter_sublist _)) h

/-- Replaying entries with fresh, pairwise distinct keys appends them to the
store in order. -/
theorem replay_append (items : List (CacheEntry V)) (m : Mem V)
    (hnd : (items.map (·.key)).Nodup)
    (hdis : ∀ e ∈ items, e.key ∉ m.keysList) :
    (items.foldl (fun m e => m.set e.key e.value e.expires) m).entries =
      m.entries ++ items := by
  induction items generalizing m with
  | nil => simp
  | cons e es ih =>
    simp only [List.map_cons, List.nodup_cons] at hnd
    obtain ⟨hne, hnd2⟩ := hnd
    simp only [List.foldl_cons]
    have hke : e.key ∉ m.keysList := hdis e (List.mem_cons_self e es)
    have hany : ¬ m.entries.any (fun x => x.key == e.key) = true := by
      intro ha
      rcases List.any_eq_true.1 ha with ⟨x, hx, hxe⟩
      exact hke (List.mem_map.2 ⟨x, hx, eq_of_beq hxe⟩)
    have hset : (m.set e.key e.value e.expires).entries =
        m.entries ++ [e] := by
      unfold Mem.set
      rw [if_neg hany]
    have hdis2 : ∀ x ∈ es,
        x.key ∉ (m.set e.key e.value e.expires).keysList := by
      intro x hx
      have h1 : x.key ∉ m.keysList := hdis x (List.mem_cons_of_mem e hx)
      have h2 : x.key ≠ e.key := fun hEq =>
        hne (hEq ▸ List.mem_map.2 ⟨x, hx, rfl⟩)
      unfold Mem.keysList
      rw [hset, List.map_append]
      intro hc
      rcases List.mem_append.1 hc with hc1 | hc2
      · exact h1 hc1
      · simp only [List.map_cons, List.map_nil, List.mem_singleton] at hc2
        exact h2 hc2
    rw [ih (m.set e.key e.value e.expires) hnd2 hdis2, hset,
      List.append_assoc]
    rfl

/-- Replaying entries with pairwise distinct keys into an empty store
reproduces them exactly. -/
theorem replay_into_empty (items : List (CacheEntry V))
    (hnd : (items.map (·.key)).Nodup) :
    (items.foldl (fun m e => m.set e.key e.value e.expires)
      Mem.empty).entries = items := by
  have h := replay_append items Mem.empty hnd (fun e _ => by
    simp [Mem.keysList, Mem.empty])
  simpa using h

/-- `set` keeps the configured directory and id, stores through the Memory
Store, and sets the dirty flag. -/
theorem FC.set_fields (now : Nat) (k : String) (v : V) (ttl : Option Nat)
    (s : FC V T) :
    (FC.set now k v ttl s).cacheDir = s.cacheDir ∧
    (FC.set now k v ttl s).cacheId = s.cacheId ∧
    (FC.set now k v ttl s).mem =
      s.mem.set k v (ttl.map (fun t => now + t)) ∧
    (FC.set now k v ttl s).dirty = true := by
  unfold FC.set
  have h := FC.scheduleBatchWrite_fields
    { s with
      mem := s.mem.set k v (ttl.map (fun t => now + t))
      lru := lruTouch s.lruCap k s.lru
      dirty := true
      snapValid := false
      pending := pendingSet s.pending k v }
  exact ⟨h.2.2.2.2.1, h.2.2.2.2.2, h.2.2.1, h.2.2.2.1⟩

/-- Facts preserved along any sequence of `set` calls: configuration,
snapshot invalidity, key uniqueness, dirtiness. -/
theorem applySets_fields (now : Nat)
    (ops : List (String × V × Option Nat)) (s : FC V T) :
    (applySets now ops s).cacheDir = s.cacheDir ∧
    (applySets now ops s).cacheId = s.cacheId ∧
    (s.snapValid = false → (applySets now ops s).snapValid = false) ∧
    (s.mem.keysList.Nodup → ((applySets now ops s).mem.keysList).Nodup) ∧
    (s.dirty = true → (applySets now ops s).dirty = true) := by
  induction ops generalizing s with
  | nil => exact ⟨rfl, rfl, fun h => h, fun h => h, fun h => h⟩
  | cons op ops ih =>
    have hstep := FC.set_fields now op.1 op.2.1 op.2.2 s
    rcases ih (FC.set now op.1 op.2.1 op.2.2 s) with ⟨i1, i2, i3, i4, i5⟩
    refine ⟨i1.trans hstep.1, i2.trans hstep.2.1, ?_, ?_, ?_⟩
    · intro _
      exact i3 (FC.set_snapValid now op.1 op.2.1 op.2.2 s)
    · intro hnd
      apply i4
      rw [hstep.2.2.1]
      exact Mem.set_keys_nodup _ _ _ _ hnd
    · intro _
      exact i5 hstep.2.2.2

/-- `loadFile` when the file is present. -/
theorem FC.loadFile_found (C : Codec V T) (p : String) (s : FC V T)
    (fs : FS T) (data : T) (hp : fsRead fs p = some data) :
    FC.loadFile C p s fs =
      ({ s with
          mem := (C.decode data).foldl
            (fun m e => m.set e.key e.value e.expires) s.mem
          dirty := true }, []) := by
  unfold FC.loadFile
  rw [hp]

/-- The state component of `load` is that of `loadFile` at the instance's
own cache file path. -/
theorem FC.load_fst (C : Codec V T) (s : FC V T) (fs : FS T) :
    (FC.load C s fs).1 = (FC.loadFile C s.cacheFilePath s fs).1 := rfl

/-- An executing `save` (dirty, invalid snapshot, successful write) writes
the fresh encode of the current items at the cache file path. -/
theorem FC.save_executes_fs (C : Codec V T) (now : Nat) (s : FC V T)
    (fs : FS T) (hd : s.dirty = true) (hsv : s.snapValid = false) :
    (FC.save C now false true s fs).2.1 =
      fsWrite fs s.cacheFilePath (C.encode (s.mem.items now)) := by
  obtain ⟨mem, lru, cap, dirty, snapText, snapValid, pending, timer, bs, bd,
    cd, ci⟩ := s
  subst hd
  subst hsv
  rfl

/-- `save` followed by `load` on a fresh instance with the same cache file
path restores exactly the live items. -/
theorem save_then_load (C : Codec V T)
    (hrt : ∀ xs, C.decode (C.encode xs) = xs) (now : Nat)
    (s fresh : FC V T) (fs : FS T)
    (hdir : fresh.cacheFilePath = s.cacheFilePath)
    (hsv : s.snapValid = false) (hd : s.dirty = true)
    (hmem : fresh.mem = Mem.empty) (hnd : s.mem.keysList.Nodup) :
    ((FC.load C fresh (FC.save C now false true s fs).2.1).1).mem.entries =
      s.mem.items now := by
  rw [FC.load_fst, hdir, FC.save_executes_fs C now s fs hd hsv]
  rw [FC.loadFile_found C _ fresh _ _
    (fsRead_fsWrite_self fs s.cacheFilePath _)]
  show ((C.decode (C.encode (s.mem.items now))).foldl
      (fun m e => m.set e.key e.value e.expires) fresh.mem).entries = _
  rw [hrt, hmem]
  exact replay_into_empty _ (Mem.items_keys_nodup s.mem now hnd)

/-- C1: starting from a fresh instance in a fresh cache directory, after an
arbitrary finite sequence of `set(key, value, ttl)` calls, `save()`
followed by `load()` on a fresh instance configured with the same cacheId
and cacheDir reproduces exactly the live `{key, value, expires}` entries —
the same set of key/value pairs, modulo entries that have expired.  The
codec round-trip contract (which covers arbitrary nesting/sharing inside
values) is the hypothesis `hrt`. -/
theorem C1_save_load_roundtrip (C : Codec V T)
    (hrt : ∀ xs, C.decode (C.encode xs) = xs) (now : Nat)
    (dir cid : String) (cap bs bd cap2 bs2 bd2 : Nat)
    (ops : List (String × V × Option Nat)) :
    ((FC.load C (FC.init dir cid cap2 bs2 bd2)
        (FC.save C now false true
          (applySets now ops (FC.init dir cid cap bs bd))
          []).2.1).1).mem.entries =
      (applySets now ops
        (FC.init dir cid cap bs bd : FC V T)).mem.items now := by
  cases ops with
  | nil => rfl
  | cons op ops =>
    have h1 := applySets_fields now (op :: ops)
      (FC.init (V := V) (T := T) dir cid cap bs bd)
    have h2 := applySets_fields now ops
      (FC.set now op.1 op.2.1 op.2.2
        (FC.init (V := V) (T := T) dir cid cap bs bd))
    apply save_then_load C hrt now
    · unfold FC.cacheFilePath
      rw [h1.1, h1.2.1]
      rfl
    · exact h1.2.2.1 rfl
    · exact h2.2.2.2.2 (FC.set_fields now op.1 op.2.1 op.2.2 _).2.2.2
    · rfl
    · exact h1.2.2.2.1 List.nodup_nil

theorem C1_save_load_roundtrip_witness :
    ((FC.load natCodec (FC.init "dir" "c1" 5 2 7)
        (FC.save natCodec 0 false true
          (applySets 0 [("a", 1, none), ("b", 2, some 10)]
            (FC.init "dir" "c1" 1000 10 100))
          []).2.1).1).mem.entries =
      (applySets 0 [("a", 1, none), ("b", 2, some 10)]
        (FC.init "dir" "c1" 1000 10 100 : FC Nat NatText)).mem.items 0 :=
  C1_save_load_roundtrip natCodec (fun _ => rfl) 0 "dir" "c1" 1000 10 100
    5 2 7 [("a", 1, none), ("b", 2, some 10)]

end FlatCacheSpec
